import Mathlib

/-!
# Verification of the attendance-tracker service worker

A shallow embedding of `src/static/service-worker.js`.

The script registers three handlers:

* `install` — opens the static cache and does `cache.addAll(APP_SHELL)`,
  then `skipWaiting()`;
* `activate` — deletes every cache whose name is not `STATIC_CACHE` or
  `RUNTIME_CACHE`, then `clients.claim()`;
* `fetch` — routes GET requests by path: `/` (cache-first), the dynamic
  API prefixes (network-first with cache fallback), `/static/`
  (cache-first), anything else untouched; non-GET requests untouched.

Cache storage is modelled as an ordered list of named caches (creation
order), each cache an association list from request path to the stored
response snapshot.  The network is a function from path to a result
(resolved response or rejection).  Each handler becomes a pure function
on this state; the fetch handler additionally records whether it called
`fetch()` and whether it performed any cache lookup, so that
effect-freedom claims are expressible.
-/

/-- A stored/returned HTTP response snapshot: status code and body. -/
structure Response where
  status : Nat
  body : String
deriving DecidableEq, Repr

/-- JS `res.ok`: status in the inclusive range 200..299. -/
def Response.ok (r : Response) : Bool :=
  decide (200 ≤ r.status) && decide (r.status ≤ 299)

/-- Outcome of `fetch(request)`: a resolved response or a network-level
rejection. -/
inductive NetResult where
  | success : Response → NetResult
  | failure : NetResult
deriving DecidableEq, Repr

/-- The network, as observed during one handler run: what `fetch` yields
for each request path. -/
def Network := String → NetResult

/-- One cache namespace: request path ↦ response snapshot. -/
abbrev Cache := List (String × Response)

/-- `cache.match(request)`: the first stored snapshot whose request key
equals the path, if any. -/
def Cache.matchReq : Cache → String → Option Response
  | [], _ => none
  | e :: rest, path =>
    if e.1 == path then some e.2 else Cache.matchReq rest path

/-- `cache.put(request, response)`: store, replacing any entry for the
same request key. -/
def Cache.put (c : Cache) (path : String) (r : Response) : Cache :=
  (path, r) :: c.filter (fun e => e.1 != path)

/-- The whole Cache Storage: named caches in creation order. -/
abbrev CacheStorage := List (String × Cache)

/-- `caches.open(name)`: return the storage, creating an empty cache
under `name` if none exists (new caches go last: creation order). -/
def cachesOpen : CacheStorage → String → CacheStorage
  | [], name => [(name, [])]
  | e :: rest, name =>
    if e.1 == name then e :: rest else e :: cachesOpen rest name

/-- The cache stored under `name` (empty if absent). -/
def cacheOf : CacheStorage → String → Cache
  | [], _ => []
  | e :: rest, name => if e.1 == name then e.2 else cacheOf rest name

/-- Apply `put` to every cache named `name` (there is at most one). -/
def putInPlace : CacheStorage → String → String → Response → CacheStorage
  | [], _, _, _ => []
  | e :: rest, name, path, r =>
    if e.1 == name then (e.1, e.2.put path r) :: putInPlace rest name path r
    else e :: putInPlace rest name path r

/-- `caches.open(name).then(c => c.put(path, r))`. -/
def cachePutIn (st : CacheStorage) (name path : String) (r : Response) :
    CacheStorage :=
  putInPlace (cachesOpen st name) name path r

/-- Global `caches.match(request)`: search every cache in order, first
hit wins. -/
def cachesMatch : CacheStorage → String → Option Response
  | [], _ => none
  | (_, c) :: rest, path =>
    match c.matchReq path with
    | some r => some r
    | none => cachesMatch rest path

/-- `str.startsWith(pat)` on character lists (pattern first). -/
def strStarts : List Char → List Char → Bool
  | [], _ => true
  | _ :: _, [] => false
  | p :: ps, c :: cs => p == c && strStarts ps cs

/-- JS `url.pathname.startsWith(pat)`. -/
def pathStartsWith (s pat : String) : Bool :=
  strStarts pat.toList s.toList

/-- `const CACHE_VERSION = 'attendance-v1'`. -/
def CACHE_VERSION : String := "attendance-v1"

/-- `const STATIC_CACHE = `static-${CACHE_VERSION}``. -/
def STATIC_CACHE : String := "static-" ++ CACHE_VERSION

/-- `const RUNTIME_CACHE = `runtime-${CACHE_VERSION}``. -/
def RUNTIME_CACHE : String := "runtime-" ++ CACHE_VERSION

/-- `const APP_SHELL = ['/', '/static/manifest.json']`. -/
def APP_SHELL : List String := ["/", "/static/manifest.json"]

/-- `url.pathname.startsWith('/attendance') || ('/export.xlsx') ||
('/justifications_report.xlsx')` — the `isAPI` classifier. -/
def isAPI (path : String) : Bool :=
  pathStartsWith path "/attendance" ||
  pathStartsWith path "/export.xlsx" ||
  pathStartsWith path "/justifications_report.xlsx"

/-- `url.pathname.startsWith('/static/')` — the `isStatic` classifier. -/
def isStatic (path : String) : Bool :=
  pathStartsWith path "/static/"

/-- An intercepted request: method and URL path. -/
structure Request where
  method : String
  path : String
deriving DecidableEq, Repr

/-- What the page observes from one intercepted fetch event. -/
inductive FetchOutcome where
  /-- The handler returned without `respondWith`: default browser
  handling, no caching involvement. -/
  | notIntercepted
  /-- `respondWith` settled with a response. -/
  | response : Response → FetchOutcome
  /-- `respondWith` settled with `undefined` (a resolved cache miss). -/
  | empty
  /-- The promise given to `respondWith` rejected. -/
  | rejected
deriving DecidableEq, Repr

/-- Result of running the fetch handler on one event: the outcome
delivered to the page, the cache storage afterwards, and whether the
handler called `fetch()` / performed any cache lookup. -/
structure FetchResult where
  outcome : FetchOutcome
  caches : CacheStorage
  netFetched : Bool
  cacheRead : Bool
deriving DecidableEq, Repr

/-- The `install` handler: `caches.open(STATIC_CACHE).then(cache =>
cache.addAll(APP_SHELL))`.  `addAll` is the host primitive's atomic
batch add: if every listed resource fetches, all are stored; if any
fetch fails the whole operation rejects and stores nothing
(`Except.error` carries the state after the failed phase). -/
def install (st : CacheStorage) (net : Network) :
    Except CacheStorage CacheStorage :=
  let st1 := cachesOpen st STATIC_CACHE
  if APP_SHELL.all (fun p => match net p with
      | .success _ => true
      | .failure => false) then
    Except.ok (APP_SHELL.foldl (fun s p =>
      match net p with
      | .success r => cachePutIn s STATIC_CACHE p r
      | .failure => s) st1)
  else
    Except.error st1

/-- The `activate` handler: `caches.keys()` filtered to the names not in
`[STATIC_CACHE, RUNTIME_CACHE]`, each deleted — i.e. exactly the caches
with a current name survive. -/
def activate (st : CacheStorage) : CacheStorage :=
  st.filter (fun e => e.1 == STATIC_CACHE || e.1 == RUNTIME_CACHE)

/-- The `fetch` handler, branch by branch from the source:

* non-GET: early `return`, no interception, no cache touched;
* `pathname === '/'`: `caches.match(request).then(cached => cached ||
  fetch(request).then(res => { open(STATIC).put; return res })
  .catch(() => cached))` — on a hit the `||` short-circuits, so no
  `fetch` happens; on a miss + network failure the catch returns the
  (undefined) `cached`, a resolved empty value;
* `isAPI`: `fetch(request).then(res => { if (res.ok) open(RUNTIME).put;
  return res }).catch(() => caches.match(request))`;
* `isStatic`: `caches.match(request).then(cached => cached ||
  fetch(request).then(res => { open(STATIC).put; return res }))` — no
  catch, so a network failure rejects;
* anything else: early `return`, not intercepted. -/
def handleFetch (st : CacheStorage) (net : Network) (req : Request) :
    FetchResult :=
  if req.method != "GET" then
    ⟨.notIntercepted, st, false, false⟩
  else if req.path == "/" then
    match cachesMatch st req.path with
    | some r => ⟨.response r, st, false, true⟩
    | none =>
      match net req.path with
      | .success res =>
        ⟨.response res, cachePutIn st STATIC_CACHE req.path res, true, true⟩
      | .failure => ⟨.empty, st, true, true⟩
  else if isAPI req.path then
    match net req.path with
    | .success res =>
      ⟨.response res,
       if res.ok then cachePutIn st RUNTIME_CACHE req.path res else st,
       true, false⟩
    | .failure =>
      match cachesMatch st req.path with
      | some r => ⟨.response r, st, true, true⟩
      | none => ⟨.empty, st, true, true⟩
  else if isStatic req.path then
    match cachesMatch st req.path with
    | some r => ⟨.response r, st, false, true⟩
    | none =>
      match net req.path with
      | .success res =>
        ⟨.response res, cachePutIn st STATIC_CACHE req.path res, true, true⟩
      | .failure => ⟨.rejected, st, true, true⟩
  else
    ⟨.notIntercepted, st, false, false⟩

/-- Cache storages reachable by running this script's handlers from a
fresh (empty) Cache Storage. -/
inductive Reachable : CacheStorage → Prop where
  | init : Reachable []
  | installOk {st st' : CacheStorage} {net : Network} :
      Reachable st → install st net = .ok st' → Reachable st'
  | installErr {st st' : CacheStorage} {net : Network} :
      Reachable st → install st net = .error st' → Reachable st'
  | activateStep {st : CacheStorage} :
      Reachable st → Reachable (activate st)
  | fetchStep {st : CacheStorage} (net : Network) (req : Request) :
      Reachable st → Reachable (handleFetch st net req).caches

/-- Request keys the static namespace may hold: the root page or a
static asset. -/
def staticKey (p : String) : Bool :=
  p == "/" || isStatic p

/-- Whether a cache named `name` exists. -/
def containsName (st : CacheStorage) (name : String) : Bool :=
  st.any (fun e => e.1 == name)

/-- Per-namespace content discipline: a cache is either the static
namespace holding only root/static-asset keys, or the runtime namespace
holding only dynamic-endpoint keys. -/
def CacheEntriesOK (name : String) (c : Cache) : Prop :=
  (name = STATIC_CACHE ∧ ∀ e ∈ c, staticKey e.1 = true) ∨
  (name = RUNTIME_CACHE ∧ ∀ e ∈ c, isAPI e.1 = true)

/-- The Cache Storage invariant this script maintains: every namespace
is one of the two it owns, with the content discipline above, and no
namespace name occurs twice. -/
def GoodState (st : CacheStorage) : Prop :=
  (∀ nc ∈ st, CacheEntriesOK nc.1 nc.2) ∧ (st.map Prod.fst).Nodup

/-! ## Concrete scenarios -/

/-- A cached snapshot of the root page. -/
def rootSnapshot : Response := ⟨200, "cached shell"⟩

/-- A fresh network response for the root page, distinct from the
cached snapshot. -/
def freshRoot : Response := ⟨200, "fresh shell"⟩

/-- An HTTP error response (non-2xx: status 404). -/
def notFound : Response := ⟨404, "not found"⟩

/-- A storage whose static namespace already holds the root page. -/
def stRootCached : CacheStorage := [(STATIC_CACHE, [("/", rootSnapshot)])]

/-- Leftover namespaces from a prior version. -/
def stV0 : CacheStorage := [("static-v0", []), ("runtime-v0", [])]

/-- A network that always resolves with the fresh root response. -/
def netFresh : Network := fun _ => .success freshRoot

/-- A network that always resolves with an HTTP 404 response. -/
def netNotFound : Network := fun _ => .success notFound

/-- A network on which every fetch fails (offline). -/
def netDown : Network := fun _ => .failure

/-- A GET request for the root page. -/
def reqRoot : Request := ⟨"GET", "/"⟩

/-- A GET request for a dynamic endpoint. -/
def reqAttendance : Request := ⟨"GET", "/attendance"⟩

/-- A GET request for a static asset. -/
def reqStyles : Request := ⟨"GET", "/static/styles.css"⟩

/-- A POST request (e.g. submitting a justification). -/
def reqPost : Request := ⟨"POST", "/attendance"⟩

/-! ## Path classification lemmas -/

theorem strStarts_cons {p : Char} {ps l : List Char}
    (h : strStarts (p :: ps) l = true) :
    ∃ cs, l = p :: cs ∧ strStarts ps cs = true := by
  cases l with
  | nil => simp [strStarts] at h
  | cons c cs =>
    simp only [strStarts, Bool.and_eq_true, beq_iff_eq] at h
    exact ⟨cs, by rw [h.1], h.2⟩

theorem startsWith_two {s pat : String} {a b : Char} {ps : List Char}
    (hpat : pat.toList = a :: b :: ps) (h : pathStartsWith s pat = true) :
    ∃ t, s.toList = a :: b :: t := by
  unfold pathStartsWith at h
  rw [hpat] at h
  obtain ⟨cs, hcs, h2⟩ := strStarts_cons h
  obtain ⟨t, ht, -⟩ := strStarts_cons h2
  exact ⟨t, by rw [hcs, ht]⟩

/-- A dynamic-endpoint path starts with `/` followed by `a`, `e` or
`j`. -/
theorem isAPI_second_char {s : String} (h : isAPI s = true) :
    ∃ c t, s.toList = '/' :: c :: t ∧ (c = 'a' ∨ c = 'e' ∨ c = 'j') := by
  have h1 : "/attendance".toList = '/' :: 'a' :: "ttendance".toList := rfl
  have h2 : "/export.xlsx".toList = '/' :: 'e' :: "xport.xlsx".toList := rfl
  have h3 : "/justifications_report.xlsx".toList =
      '/' :: 'j' :: "ustifications_report.xlsx".toList := rfl
  simp only [isAPI, Bool.or_eq_true] at h
  rcases h with (h | h) | h
  · obtain ⟨t, ht⟩ := startsWith_two h1 h
    exact ⟨'a', t, ht, Or.inl rfl⟩
  · obtain ⟨t, ht⟩ := startsWith_two h2 h
    exact ⟨'e', t, ht, Or.inr (Or.inl rfl)⟩
  · obtain ⟨t, ht⟩ := startsWith_two h3 h
    exact ⟨'j', t, ht, Or.inr (Or.inr rfl)⟩

/-- A static-asset path starts with `/` followed by `s`. -/
theorem isStatic_second_char {s : String} (h : isStatic s = true) :
    ∃ t, s.toList = '/' :: 's' :: t := by
  have h1 : "/static/".toList = '/' :: 's' :: "tatic/".toList := rfl
  exact startsWith_two h1 h

theorem isAPI_ne_root {s : String} (h : isAPI s = true) : s ≠ "/" := by
  obtain ⟨c, t, ht, -⟩ := isAPI_second_char h
  intro hs
  rw [hs] at ht
  have hroot : "/".toList = ['/'] := rfl
  rw [hroot] at ht
  simp at ht

theorem isStatic_ne_root {s : String} (h : isStatic s = true) : s ≠ "/" := by
  obtain ⟨t, ht⟩ := isStatic_second_char h
  intro hs
  rw [hs] at ht
  have hroot : "/".toList = ['/'] := rfl
  rw [hroot] at ht
  simp at ht

theorem isAPI_not_isStatic {s : String} (h : isAPI s = true) :
    isStatic s = false := by
  by_contra hs
  rw [Bool.not_eq_false] at hs
  obtain ⟨t, ht⟩ := isStatic_second_char hs
  obtain ⟨c, t', ht', hc⟩ := isAPI_second_char h
  rw [ht] at ht'
  have hsc : 's' = c := by
    have := ht'
    simp only [List.cons.injEq] at this
    exact this.2.1
  rcases hc with rfl | rfl | rfl <;> exact absurd hsc (by decide)

theorem isStatic_not_isAPI {s : String} (h : isStatic s = true) :
    isAPI s = false := by
  by_contra hs
  rw [Bool.not_eq_false] at hs
  rw [isAPI_not_isStatic hs] at h
  exact absurd h (by decide)

theorem staticKey_not_isAPI {s : String} (h : staticKey s = true) :
    isAPI s = false := by
  simp only [staticKey, Bool.or_eq_true, beq_iff_eq] at h
  rcases h with rfl | h
  · decide
  · exact isStatic_not_isAPI h

theorem isAPI_not_staticKey {s : String} (h : isAPI s = true) :
    staticKey s = false := by
  by_contra hs
  rw [Bool.not_eq_false] at hs
  rw [staticKey_not_isAPI hs] at h
  exact absurd h (by decide)

/-! ## Cache-operation lemmas -/

theorem matchReq_put_same (c : Cache) (p : String) (r : Response) :
    (c.put p r).matchReq p = some r := by
  simp [Cache.put, Cache.matchReq]

theorem matchReq_filter_ne (c : Cache) {p q : String} (h : q ≠ p) :
    Cache.matchReq (c.filter (fun e => e.1 != p)) q = c.matchReq q := by
  induction c with
  | nil => rfl
  | cons e rest ih =>
    by_cases hep : e.1 = p
    · simp [List.filter_cons, hep, Cache.matchReq, Ne.symm h, ih]
    · simp [List.filter_cons, hep, Cache.matchReq, ih]

theorem matchReq_put_other (c : Cache) {p q : String} (h : q ≠ p)
    (r : Response) : (c.put p r).matchReq q = c.matchReq q := by
  have h2 : ¬ p = q := fun hh => h hh.symm
  simp [Cache.put, Cache.matchReq, h2, matchReq_filter_ne c h]

theorem mem_put {c : Cache} {p : String} {r : Response}
    {e : String × Response} (h : e ∈ c.put p r) : e = (p, r) ∨ e ∈ c := by
  simp only [Cache.put, List.mem_cons, List.mem_filter] at h
  rcases h with h | h
  · exact Or.inl h
  · exact Or.inr h.1

theorem matchReq_some_mem {c : Cache} {path : String} {r : Response}
    (h : c.matchReq path = some r) : (path, r) ∈ c := by
  induction c with
  | nil => simp [Cache.matchReq] at h
  | cons e rest ih =>
    simp only [Cache.matchReq] at h
    by_cases he : e.1 = path
    · rw [if_pos (by simpa using he)] at h
      have h2 : e.2 = r := by injection h
      obtain ⟨a, b⟩ := e
      simp_all
    · rw [if_neg (by simpa using he)] at h
      exact List.mem_cons_of_mem _ (ih h)

theorem matchReq_none_of_keys {c : Cache} {path : String} {P : String → Bool}
    (hc : ∀ e ∈ c, P e.1 = true) (hp : P path = false) :
    c.matchReq path = none := by
  cases hm : c.matchReq path with
  | none => rfl
  | some r =>
    have h1 : P path = true := hc (path, r) (matchReq_some_mem hm)
    rw [hp] at h1
    exact absurd h1 (by decide)

theorem cacheOf_cachesOpen_same (st : CacheStorage) (name : String) :
    cacheOf (cachesOpen st name) name = cacheOf st name := by
  induction st with
  | nil => simp [cachesOpen, cacheOf]
  | cons e rest ih =>
    by_cases he : e.1 = name
    · simp [cachesOpen, cacheOf, he]
    · simp [cachesOpen, cacheOf, he, ih]

theorem cacheOf_cachesOpen_other {st : CacheStorage} {name name' : String}
    (h : name' ≠ name) :
    cacheOf (cachesOpen st name) name' = cacheOf st name' := by
  induction st with
  | nil => simp [cachesOpen, cacheOf, Ne.symm h]
  | cons e rest ih =>
    by_cases he : e.1 = name
    · simp [cachesOpen, cacheOf, he]
    · simp [cachesOpen, cacheOf, he, ih]

theorem containsName_cachesOpen (st : CacheStorage) (name : String) :
    containsName (cachesOpen st name) name = true := by
  induction st with
  | nil => simp [cachesOpen, containsName]
  | cons e rest ih =>
    by_cases he : e.1 = name
    · simp [cachesOpen, containsName, he]
    · simp only [containsName, List.any_eq_true] at ih ⊢
      obtain ⟨x, hx, hx2⟩ := ih
      refine ⟨x, ?_, hx2⟩
      simp [cachesOpen, he, List.mem_cons]
      exact Or.inr hx

theorem cacheOf_putInPlace_same {st : CacheStorage} {name p : String}
    {r : Response} (h : containsName st name = true) :
    cacheOf (putInPlace st name p r) name = (cacheOf st name).put p r := by
  induction st with
  | nil => simp [containsName] at h
  | cons e rest ih =>
    by_cases he : e.1 = name
    · simp [putInPlace, cacheOf, he]
    · have h2 : containsName rest name = true := by
        simpa [containsName, List.any_cons, he] using h
      simp [putInPlace, cacheOf, he, ih h2]

theorem cacheOf_putInPlace_other {st : CacheStorage} {name name' p : String}
    {r : Response} (h : name' ≠ name) :
    cacheOf (putInPlace st name p r) name' = cacheOf st name' := by
  induction st with
  | nil => rfl
  | cons e rest ih =>
    by_cases he : e.1 = name
    · simp [putInPlace, cacheOf, he, Ne.symm h, ih]
    · by_cases he' : e.1 = name'
      · simp [putInPlace, cacheOf, he, he', h]
      · simp [putInPlace, cacheOf, he, he', ih]

theorem cacheOf_cachePutIn_same (st : CacheStorage) (name p : String)
    (r : Response) :
    cacheOf (cachePutIn st name p r) name = (cacheOf st name).put p r := by
  unfold cachePutIn
  rw [cacheOf_putInPlace_same (containsName_cachesOpen st name),
    cacheOf_cachesOpen_same]

theorem cacheOf_cachePutIn_other {st : CacheStorage} {name name' p : String}
    {r : Response} (h : name' ≠ name) :
    cacheOf (cachePutIn st name p r) name' = cacheOf st name' := by
  unfold cachePutIn
  rw [cacheOf_putInPlace_other h, cacheOf_cachesOpen_other h]

/-! ## The namespace-content invariant -/

theorem STATIC_ne_RUNTIME : STATIC_CACHE ≠ RUNTIME_CACHE := by decide

theorem mem_cachesOpen {st : CacheStorage} {name : String}
    {nc : String × Cache} (h : nc ∈ cachesOpen st name) :
    nc ∈ st ∨ nc = (name, []) := by
  induction st with
  | nil =>
    simp only [cachesOpen, List.mem_singleton] at h
    exact Or.inr h
  | cons e rest ih =>
    by_cases he : e.1 = name
    · simp only [cachesOpen, he, beq_self_eq_true, if_true] at h
      exact Or.inl h
    · simp only [cachesOpen, List.mem_cons] at h
      rw [if_neg (by simpa using he)] at h
      rcases List.mem_cons.mp h with h | h
      · exact Or.inl (List.mem_cons.mpr (Or.inl h))
      · rcases ih h with h' | h'
        · exact Or.inl (List.mem_cons_of_mem _ h')
        · exact Or.inr h'

theorem mem_putInPlace {st : CacheStorage} {name p : String} {r : Response}
    {nc' : String × Cache} (h : nc' ∈ putInPlace st name p r) :
    ∃ nc, nc ∈ st ∧
      (nc' = nc ∨ (nc.1 = name ∧ nc' = (nc.1, nc.2.put p r))) := by
  induction st with
  | nil => simp [putInPlace] at h
  | cons e rest ih =>
    by_cases he : e.1 = name
    · rw [putInPlace, if_pos (by simpa using he)] at h
      rcases List.mem_cons.mp h with h | h
      · exact ⟨e, List.mem_cons.mpr (Or.inl rfl), Or.inr ⟨he, h⟩⟩
      · obtain ⟨nc, hnc, hor⟩ := ih h
        exact ⟨nc, List.mem_cons_of_mem _ hnc, hor⟩
    · rw [putInPlace, if_neg (by simpa using he)] at h
      rcases List.mem_cons.mp h with h | h
      · exact ⟨e, List.mem_cons.mpr (Or.inl rfl), Or.inl h⟩
      · obtain ⟨nc, hnc, hor⟩ := ih h
        exact ⟨nc, List.mem_cons_of_mem _ hnc, hor⟩

theorem names_putInPlace (st : CacheStorage) (name p : String)
    (r : Response) :
    (putInPlace st name p r).map Prod.fst = st.map Prod.fst := by
  induction st with
  | nil => rfl
  | cons e rest ih =>
    by_cases he : e.1 = name
    · simp [putInPlace, he, ih]
    · simp [putInPlace, he, ih]

theorem cachesOpen_of_contains {st : CacheStorage} {name : String}
    (h : containsName st name = true) : cachesOpen st name = st := by
  induction st with
  | nil => simp [containsName] at h
  | cons e rest ih =>
    by_cases he : e.1 = name
    · simp [cachesOpen, he]
    · have h2 : containsName rest name = true := by
        simpa [containsName, List.any_cons, he] using h
      simp [cachesOpen, he, ih h2]

theorem names_cachesOpen_of_not {st : CacheStorage} {name : String}
    (h : containsName st name = false) :
    (cachesOpen st name).map Prod.fst = st.map Prod.fst ++ [name] := by
  induction st with
  | nil => rfl
  | cons e rest ih =>
    have he : ¬ e.1 = name := by
      intro hh
      simp [containsName, List.any_cons, hh] at h
    have h2 : containsName rest name = false := by
      simpa [containsName, List.any_cons, he] using h
    simp [cachesOpen, he, ih h2]

theorem not_mem_names_of_not_contains {st : CacheStorage} {name : String}
    (h : containsName st name = false) : name ∉ st.map Prod.fst := by
  intro hmem
  rw [List.mem_map] at hmem
  obtain ⟨e, he, hfst⟩ := hmem
  have h1 : containsName st name = true := by
    simp only [containsName, List.any_eq_true]
    exact ⟨e, he, by simp [hfst]⟩
  rw [h] at h1
  exact absurd h1 (by decide)

theorem nodup_names_cachesOpen {st : CacheStorage} {name : String}
    (h : (st.map Prod.fst).Nodup) :
    ((cachesOpen st name).map Prod.fst).Nodup := by
  cases hc : containsName st name with
  | true => rw [cachesOpen_of_contains hc]; exact h
  | false =>
    rw [names_cachesOpen_of_not hc]
    refine List.Nodup.append h (List.nodup_singleton name) ?_
    intro x hx hx2
    rw [List.mem_singleton] at hx2
    subst hx2
    exact not_mem_names_of_not_contains hc hx

theorem goodState_cachesOpen {st : CacheStorage} {name : String}
    (hg : GoodState st)
    (hname : name = STATIC_CACHE ∨ name = RUNTIME_CACHE) :
    GoodState (cachesOpen st name) := by
  obtain ⟨hk, hn⟩ := hg
  constructor
  · intro nc hnc
    rcases mem_cachesOpen hnc with h | rfl
    · exact hk nc h
    · rcases hname with rfl | rfl
      · exact Or.inl ⟨rfl, by simp⟩
      · exact Or.inr ⟨rfl, by simp⟩
  · exact nodup_names_cachesOpen hn

theorem goodState_cachePutIn_static {st : CacheStorage} {p : String}
    {r : Response} (hg : GoodState st) (hp : staticKey p = true) :
    GoodState (cachePutIn st STATIC_CACHE p r) := by
  obtain ⟨hk, hn⟩ := goodState_cachesOpen hg (Or.inl rfl)
  constructor
  · intro nc' hnc'
    obtain ⟨nc, hnc, hor⟩ := mem_putInPlace hnc'
    rcases hor with rfl | ⟨hname, rfl⟩
    · exact hk _ hnc
    · rcases hk nc hnc with ⟨h1, h2⟩ | ⟨h1, h2⟩
      · refine Or.inl ⟨h1, ?_⟩
        intro e he
        rcases mem_put he with rfl | he'
        · exact hp
        · exact h2 e he'
      · rw [hname] at h1
        exact absurd h1 STATIC_ne_RUNTIME
  · show ((putInPlace (cachesOpen st STATIC_CACHE) STATIC_CACHE p r).map
      Prod.fst).Nodup
    rw [names_putInPlace]
    exact hn

theorem goodState_cachePutIn_runtime {st : CacheStorage} {p : String}
    {r : Response} (hg : GoodState st) (hp : isAPI p = true) :
    GoodState (cachePutIn st RUNTIME_CACHE p r) := by
  obtain ⟨hk, hn⟩ := goodState_cachesOpen hg (Or.inr rfl)
  constructor
  · intro nc' hnc'
    obtain ⟨nc, hnc, hor⟩ := mem_putInPlace hnc'
    rcases hor with rfl | ⟨hname, rfl⟩
    · exact hk _ hnc
    · rcases hk nc hnc with ⟨h1, h2⟩ | ⟨h1, h2⟩
      · rw [hname] at h1
        exact absurd h1.symm STATIC_ne_RUNTIME
      · refine Or.inr ⟨h1, ?_⟩
        intro e he
        rcases mem_put he with rfl | he'
        · exact hp
        · exact h2 e he'
  · show ((putInPlace (cachesOpen st RUNTIME_CACHE) RUNTIME_CACHE p r).map
      Prod.fst).Nodup
    rw [names_putInPlace]
    exact hn

theorem goodState_handleFetch {st : CacheStorage} (net : Network)
    (req : Request) (hg : GoodState st) :
    GoodState (handleFetch st net req).caches := by
  unfold handleFetch
  by_cases hm : req.method != "GET"
  · simp only [hm, if_true]
    exact hg
  · rw [if_neg (by simpa using hm)]
    by_cases hroot : req.path == "/"
    · rw [if_pos hroot]
      cases cachesMatch st req.path with
      | some r => exact hg
      | none =>
        cases net req.path with
        | success res =>
          refine goodState_cachePutIn_static hg ?_
          have : req.path = "/" := by simpa using hroot
          simp [staticKey, this]
        | failure => exact hg
    · rw [if_neg hroot]
      by_cases hapi : isAPI req.path
      · rw [if_pos hapi]
        cases net req.path with
        | success res =>
          show GoodState
            (if res.ok = true then cachePutIn st RUNTIME_CACHE req.path res
             else st)
          by_cases hok : res.ok
          · rw [if_pos hok]
            exact goodState_cachePutIn_runtime hg hapi
          · rw [if_neg hok]
            exact hg
        | failure =>
          cases cachesMatch st req.path with
          | some r => exact hg
          | none => exact hg
      · rw [if_neg hapi]
        by_cases hst : isStatic req.path
        · rw [if_pos hst]
          cases cachesMatch st req.path with
          | some r => exact hg
          | none =>
            cases net req.path with
            | success res =>
              refine goodState_cachePutIn_static hg ?_
              simp [staticKey, hst]
            | failure => exact hg
        · rw [if_neg hst]
          exact hg

/-- GoodState is preserved by the batch-add fold of the install
handler. -/
theorem goodState_shellFold {l : List String} {st : CacheStorage}
    {net : Network} (hg : GoodState st)
    (hl : ∀ p ∈ l, staticKey p = true) :
    GoodState (l.foldl (fun s p => match net p with
      | .success r => cachePutIn s STATIC_CACHE p r
      | .failure => s) st) := by
  induction l generalizing st with
  | nil => exact hg
  | cons p rest ih =>
    simp only [List.foldl]
    apply ih
    · cases hnp : net p with
      | success r =>
        exact goodState_cachePutIn_static hg (hl p (by simp))
      | failure => exact hg
    · intro q hq
      exact hl q (by simp [hq])

theorem goodState_install_ok {st st' : CacheStorage} {net : Network}
    (hg : GoodState st) (h : install st net = .ok st') : GoodState st' := by
  unfold install at h
  split at h
  · injection h with h
    subst h
    exact goodState_shellFold (goodState_cachesOpen hg (Or.inl rfl))
      (by decide)
  · exact absurd h (by simp)

theorem goodState_install_err {st st' : CacheStorage} {net : Network}
    (hg : GoodState st) (h : install st net = .error st') :
    GoodState st' := by
  unfold install at h
  split at h
  · exact absurd h (by simp)
  · injection h with h
    subst h
    exact goodState_cachesOpen hg (Or.inl rfl)

theorem goodState_activate {st : CacheStorage} (hg : GoodState st) :
    GoodState (activate st) := by
  obtain ⟨hk, hn⟩ := hg
  constructor
  · intro nc hnc
    exact hk nc (List.mem_of_mem_filter hnc)
  · exact List.Nodup.sublist (List.Sublist.map _ (List.filter_sublist st)) hn

/-- Every state this script can reach from a fresh Cache Storage obeys
the namespace-content invariant. -/
theorem reachable_goodState {st : CacheStorage} (h : Reachable st) :
    GoodState st := by
  induction h with
  | init => exact ⟨by simp, by simp⟩
  | installOk hr hin ih => exact goodState_install_ok ih hin
  | installErr hr hin ih => exact goodState_install_err ih hin
  | activateStep hr ih => exact goodState_activate ih
  | fetchStep net req hr ih => exact goodState_handleFetch net req ih

theorem cachesMatch_none {st : CacheStorage} {path : String}
    (h : ∀ nc ∈ st, Cache.matchReq nc.2 path = none) :
    cachesMatch st path = none := by
  induction st with
  | nil => rfl
  | cons e rest ih =>
    simp only [cachesMatch]
    rw [h e (by simp)]
    exact ih (fun nc hnc => h nc (by simp [hnc]))

theorem cachesMatch_eq_cacheOf {st : CacheStorage} {name path : String}
    (hnodup : (st.map Prod.fst).Nodup)
    (hother : ∀ nc ∈ st, nc.1 ≠ name → Cache.matchReq nc.2 path = none) :
    cachesMatch st path = (cacheOf st name).matchReq path := by
  induction st with
  | nil => rfl
  | cons e rest ih =>
    obtain ⟨hnotin, hrest⟩ := List.nodup_cons.mp hnodup
    by_cases he : e.1 = name
    · cases hm : Cache.matchReq e.2 path with
      | some r => simp [cachesMatch, cacheOf, he, hm]
      | none =>
        simp only [cachesMatch, cacheOf, he, beq_self_eq_true, if_true, hm]
        apply cachesMatch_none
        intro nc hnc
        apply hother nc (List.mem_cons_of_mem _ hnc)
        intro hname
        apply hnotin
        rw [he, ← hname]
        exact List.mem_map_of_mem _ hnc
    · have hm : Cache.matchReq e.2 path = none :=
        hother e (by simp) he
      simp only [cachesMatch, cacheOf, hm]
      rw [if_neg (by simpa using he)]
      exact ih hrest
        (fun nc hnc hne => hother nc (List.mem_cons_of_mem _ hnc) hne)

/-- Under the invariant, a global `caches.match` on a dynamic-endpoint
path is exactly a lookup in the runtime namespace. -/
theorem cachesMatch_api_eq {st : CacheStorage} {path : String}
    (hg : GoodState st) (hapi : isAPI path = true) :
    cachesMatch st path = (cacheOf st RUNTIME_CACHE).matchReq path := by
  obtain ⟨hk, hn⟩ := hg
  apply cachesMatch_eq_cacheOf hn
  intro nc hnc hne
  rcases hk nc hnc with ⟨h1, h2⟩ | ⟨h1, h2⟩
  · exact matchReq_none_of_keys h2 (isAPI_not_staticKey hapi)
  · exact absurd h1 hne

/-- Under the invariant, a global `caches.match` on a root/static-asset
path is exactly a lookup in the static namespace. -/
theorem cachesMatch_staticKey_eq {st : CacheStorage} {path : String}
    (hg : GoodState st) (hkey : staticKey path = true) :
    cachesMatch st path = (cacheOf st STATIC_CACHE).matchReq path := by
  obtain ⟨hk, hn⟩ := hg
  apply cachesMatch_eq_cacheOf hn
  intro nc hnc hne
  rcases hk nc hnc with ⟨h1, h2⟩ | ⟨h1, h2⟩
  · exact absurd h1 hne
  · exact matchReq_none_of_keys h2 (staticKey_not_isAPI hkey)

/-! ## Branch equations of the fetch handler -/

theorem fetch_root_hit {st : CacheStorage} {net : Network} {req : Request}
    {r : Response} (hm : req.method = "GET") (hp : req.path = "/")
    (hc : cachesMatch st req.path = some r) :
    handleFetch st net req = ⟨.response r, st, false, true⟩ := by
  unfold handleFetch
  rw [if_neg (by simp [hm]), if_pos (by simp [hp]), hc]

theorem fetch_root_miss_success {st : CacheStorage} {net : Network}
    {req : Request} {res : Response} (hm : req.method = "GET")
    (hp : req.path = "/") (hc : cachesMatch st req.path = none)
    (hnet : net req.path = .success res) :
    handleFetch st net req =
      ⟨.response res, cachePutIn st STATIC_CACHE req.path res,
       true, true⟩ := by
  unfold handleFetch
  rw [if_neg (by simp [hm]), if_pos (by simp [hp]), hc, hnet]

theorem fetch_root_miss_failure {st : CacheStorage} {net : Network}
    {req : Request} (hm : req.method = "GET") (hp : req.path = "/")
    (hc : cachesMatch st req.path = none)
    (hnet : net req.path = .failure) :
    handleFetch st net req = ⟨.empty, st, true, true⟩ := by
  unfold handleFetch
  rw [if_neg (by simp [hm]), if_pos (by simp [hp]), hc, hnet]

theorem fetch_api_success {st : CacheStorage} {net : Network}
    {req : Request} {res : Response} (hm : req.method = "GET")
    (hapi : isAPI req.path = true) (hnet : net req.path = .success res) :
    handleFetch st net req =
      ⟨.response res,
       if res.ok then cachePutIn st RUNTIME_CACHE req.path res else st,
       true, false⟩ := by
  have hroot : ¬ (req.path == "/") = true := by
    simpa using isAPI_ne_root hapi
  unfold handleFetch
  rw [if_neg (by simp [hm]), if_neg hroot, if_pos hapi, hnet]

theorem fetch_api_failure {st : CacheStorage} {net : Network}
    {req : Request} (hm : req.method = "GET")
    (hapi : isAPI req.path = true) (hnet : net req.path = .failure) :
    handleFetch st net req =
      (match cachesMatch st req.path with
       | some r => ⟨.response r, st, true, true⟩
       | none => ⟨.empty, st, true, true⟩) := by
  have hroot : ¬ (req.path == "/") = true := by
    simpa using isAPI_ne_root hapi
  unfold handleFetch
  rw [if_neg (by simp [hm]), if_neg hroot, if_pos hapi, hnet]

theorem fetch_static_hit {st : CacheStorage} {net : Network}
    {req : Request} {r : Response} (hm : req.method = "GET")
    (hst : isStatic req.path = true)
    (hc : cachesMatch st req.path = some r) :
    handleFetch st net req = ⟨.response r, st, false, true⟩ := by
  have hroot : ¬ (req.path == "/") = true := by
    simpa using isStatic_ne_root hst
  have hapi : ¬ isAPI req.path = true := by
    simp [isStatic_not_isAPI hst]
  unfold handleFetch
  rw [if_neg (by simp [hm]), if_neg hroot, if_neg hapi, if_pos hst, hc]

theorem fetch_static_miss_success {st : CacheStorage} {net : Network}
    {req : Request} {res : Response} (hm : req.method = "GET")
    (hst : isStatic req.path = true)
    (hc : cachesMatch st req.path = none)
    (hnet : net req.path = .success res) :
    handleFetch st net req =
      ⟨.response res, cachePutIn st STATIC_CACHE req.path res,
       true, true⟩ := by
  have hroot : ¬ (req.path == "/") = true := by
    simpa using isStatic_ne_root hst
  have hapi : ¬ isAPI req.path = true := by
    simp [isStatic_not_isAPI hst]
  unfold handleFetch
  rw [if_neg (by simp [hm]), if_neg hroot, if_neg hapi, if_pos hst, hc,
    hnet]

theorem fetch_static_miss_failure {st : CacheStorage} {net : Network}
    {req : Request} (hm : req.method = "GET")
    (hst : isStatic req.path = true)
    (hc : cachesMatch st req.path = none)
    (hnet : net req.path = .failure) :
    handleFetch st net req = ⟨.rejected, st, true, true⟩ := by
  have hroot : ¬ (req.path == "/") = true := by
    simpa using isStatic_ne_root hst
  have hapi : ¬ isAPI req.path = true := by
    simp [isStatic_not_isAPI hst]
  unfold handleFetch
  rw [if_neg (by simp [hm]), if_neg hroot, if_neg hapi, if_pos hst, hc,
    hnet]

/-- Entries of a namespace's cache come from a pair actually stored
under that name (or the namespace is absent and the cache empty). -/
theorem cacheOf_mem_or_nil (st : CacheStorage) (name : String) :
    cacheOf st name = [] ∨ (name, cacheOf st name) ∈ st := by
  induction st with
  | nil => exact Or.inl rfl
  | cons e rest ih =>
    by_cases he : e.1 = name
    · right
      obtain ⟨a, b⟩ := e
      simp only [cacheOf]
      simp only at he
      subst he
      simp
    · rcases ih with h | h
      · left
        simpa [cacheOf, he] using h
      · right
        refine List.mem_cons_of_mem _ ?_
        simpa [cacheOf, he] using h

/-- With both app-shell resources reachable, `install` resolves to the
state obtained by storing both fetched responses in the static
namespace. -/
theorem install_ok_eq {st : CacheStorage} {net : Network}
    {r1 r2 : Response} (h1 : net "/" = .success r1)
    (h2 : net "/static/manifest.json" = .success r2) :
    install st net = .ok (cachePutIn
      (cachePutIn (cachesOpen st STATIC_CACHE) STATIC_CACHE "/" r1)
      STATIC_CACHE "/static/manifest.json" r2) := by
  unfold install
  simp [APP_SHELL, h1, h2]

/-- With some app-shell resource unreachable, `install` rejects, the
state being only the opened (possibly fresh) static namespace. -/
theorem install_err_eq {st : CacheStorage} {net : Network}
    (h : ∃ p ∈ APP_SHELL, net p = .failure) :
    install st net = .error (cachesOpen st STATIC_CACHE) := by
  unfold install
  rw [if_neg]
  intro hall
  obtain ⟨p, hp, hfail⟩ := h
  rw [List.all_eq_true] at hall
  have hcontra := hall p hp
  rw [hfail] at hcontra
  simp at hcontra

/-! ## Claim theorems -/

/-- C1 is refuted: with a cached root entry present and the network
able to deliver a distinct fresh successful response, the handler
returns the cached snapshot but issues no network fetch at all (the
`cached || fetch(request)` chain short-circuits on a hit), and the
fresh response is not stored into the static namespace — there is no
concurrent background refresh. -/
theorem C1_counterexample :
    (handleFetch stRootCached netFresh reqRoot).outcome =
        .response rootSnapshot ∧
    (handleFetch stRootCached netFresh reqRoot).netFetched = false ∧
    (cacheOf (handleFetch stRootCached netFresh reqRoot).caches
        STATIC_CACHE).matchReq "/" = some rootSnapshot ∧
    rootSnapshot ≠ freshRoot := by
  decide

/-- C1 (amended): for every GET request with path exactly `/`, when a
matching cache entry exists the fetch handler returns that cached
snapshot immediately and issues no network fetch, leaving the storage
unchanged; only on a cache miss is a network fetch issued, and a
resolved response is then returned and stored into the static
namespace. -/
theorem C1_root_cache_first {st : CacheStorage} {net : Network}
    {req : Request} (hm : req.method = "GET") (hp : req.path = "/") :
    (∀ r, cachesMatch st req.path = some r →
      handleFetch st net req = ⟨.response r, st, false, true⟩) ∧
    (cachesMatch st req.path = none →
      ∀ res, net req.path = .success res →
        (handleFetch st net req).outcome = .response res ∧
        (cacheOf (handleFetch st net req).caches STATIC_CACHE).matchReq
          req.path = some res ∧
        (handleFetch st net req).netFetched = true) := by
  constructor
  · intro r hc
    exact fetch_root_hit hm hp hc
  · intro hc res hres
    rw [fetch_root_miss_success hm hp hc hres]
    refine ⟨rfl, ?_, rfl⟩
    show (cacheOf (cachePutIn st STATIC_CACHE req.path res)
      STATIC_CACHE).matchReq req.path = some res
    rw [cacheOf_cachePutIn_same, matchReq_put_same]

/-- C1 witness: the amended hit case at a concrete cached state. -/
theorem C1_witness :
    handleFetch stRootCached netFresh reqRoot =
      ⟨.response rootSnapshot, stRootCached, false, true⟩ :=
  (C1_root_cache_first rfl rfl).1 rootSnapshot (by decide)

/-- C2 is refuted: on `/` with no cached entry and a failing network,
the handler resolves with the empty (undefined) cached value — the
`.catch(() => cached)` result — rather than rejecting. -/
theorem C2_counterexample :
    (handleFetch [] netDown reqRoot).outcome = .empty ∧
    FetchOutcome.empty ≠ FetchOutcome.rejected := by
  decide

/-- C2 (amended): for every GET `/` request where no cached entry
exists and the network fetch fails, the caller observes a resolved
empty/undefined result (the propagated cache-miss value), not a
rejection, and the storage is unchanged. -/
theorem C2_root_offline_empty {st : CacheStorage} {net : Network}
    {req : Request} (hm : req.method = "GET") (hp : req.path = "/")
    (hc : cachesMatch st req.path = none)
    (hnet : net req.path = .failure) :
    handleFetch st net req = ⟨.empty, st, true, true⟩ :=
  fetch_root_miss_failure hm hp hc hnet

/-- C2 witness: the amended statement at the empty storage and an
offline network. -/
theorem C2_witness :
    handleFetch [] netDown reqRoot = ⟨.empty, [], true, true⟩ :=
  C2_root_offline_empty rfl rfl rfl rfl

/-- C7: a request whose method is not GET is not intercepted: no
response is supplied, no cache namespace is read, no network fetch is
issued by the handler, and no cache namespace is modified. -/
theorem C7_nonGET_not_intercepted {st : CacheStorage} {net : Network}
    {req : Request} (hm : req.method ≠ "GET") :
    handleFetch st net req = ⟨.notIntercepted, st, false, false⟩ := by
  unfold handleFetch
  rw [if_pos (by simpa using hm)]

/-- C7 witness: a POST request passes through untouched. -/
theorem C7_witness :
    handleFetch stRootCached netFresh reqPost =
      ⟨.notIntercepted, stRootCached, false, false⟩ :=
  C7_nonGET_not_intercepted (by decide)

/-- C3: for every GET request to a dynamic endpoint whose network fetch
fails, in any state this script can reach, the returned response is the
runtime-namespace entry stored for that request (or the empty/undefined
result if none exists) and the storage is unchanged; by the namespace
invariant no other namespace's entry can supply the value. -/
theorem C3_api_offline_fallback {st : CacheStorage} {net : Network}
    {req : Request} (hre : Reachable st) (hm : req.method = "GET")
    (hapi : isAPI req.path = true) (hnet : net req.path = .failure) :
    (handleFetch st net req).caches = st ∧
    (handleFetch st net req).outcome =
      (match (cacheOf st RUNTIME_CACHE).matchReq req.path with
       | some r => .response r
       | none => .empty) := by
  have hg := reachable_goodState hre
  have hmm := cachesMatch_api_eq hg hapi
  rw [fetch_api_failure hm hapi hnet, ← hmm]
  cases hcm : cachesMatch st req.path <;> simp [hcm]

/-- C3 witness: an offline dynamic request at the fresh (empty,
reachable) storage yields the empty result and leaves the storage
unchanged. -/
theorem C3_witness :
    (handleFetch [] netDown reqAttendance).caches = [] ∧
    (handleFetch [] netDown reqAttendance).outcome = .empty := by
  have h := @C3_api_offline_fallback [] netDown reqAttendance
    Reachable.init rfl (by decide) rfl
  exact ⟨h.1, by rw [h.2]; rfl⟩

/-- C4: for every GET request to a dynamic endpoint whose network fetch
resolves, the response is returned to the caller as-is and no cache
fallback is consulted; a 2xx response is additionally stored into the
runtime namespace, while a non-2xx response leaves every cache
untouched. -/
theorem C4_api_http_response {st : CacheStorage} {net : Network}
    {req : Request} {res : Response} (hm : req.method = "GET")
    (hapi : isAPI req.path = true) (hnet : net req.path = .success res) :
    (handleFetch st net req).outcome = .response res ∧
    (handleFetch st net req).cacheRead = false ∧
    (res.ok = true →
      (cacheOf (handleFetch st net req).caches RUNTIME_CACHE).matchReq
        req.path = some res) ∧
    (res.ok = false → (handleFetch st net req).caches = st) := by
  rw [fetch_api_success hm hapi hnet]
  refine ⟨rfl, rfl, ?_, ?_⟩
  · intro hok
    show (cacheOf
      (if res.ok then cachePutIn st RUNTIME_CACHE req.path res else st)
      RUNTIME_CACHE).matchReq req.path = some res
    rw [if_pos hok, cacheOf_cachePutIn_same, matchReq_put_same]
  · intro hok
    show (if res.ok then cachePutIn st RUNTIME_CACHE req.path res
      else st) = st
    rw [if_neg (by simp [hok])]

/-- C4 witness: a 200 dynamic response is returned and stored into the
runtime namespace. -/
theorem C4_witness :
    (handleFetch [] netFresh reqAttendance).outcome =
        .response freshRoot ∧
    (cacheOf (handleFetch [] netFresh reqAttendance).caches
        RUNTIME_CACHE).matchReq "/attendance" = some freshRoot := by
  have h := @C4_api_http_response [] netFresh reqAttendance freshRoot
    rfl (by decide) rfl
  exact ⟨h.1, h.2.2.1 (by decide)⟩

/-- C5: when every app-shell resource is reachable, install succeeds
and afterwards a static-namespace lookup succeeds for every app-shell
resource; when any app-shell resource is unreachable, the whole install
operation fails and the static namespace's contents are unchanged (no
resource committed individually). -/
theorem C5_install_all_or_nothing (st : CacheStorage) (net : Network) :
    ((∀ p ∈ APP_SHELL, net p ≠ .failure) →
      ∃ st', install st net = .ok st' ∧
        ∀ p ∈ APP_SHELL,
          ((cacheOf st' STATIC_CACHE).matchReq p).isSome = true) ∧
    ((∃ p ∈ APP_SHELL, net p = .failure) →
      ∃ st', install st net = .error st' ∧
        cacheOf st' STATIC_CACHE = cacheOf st STATIC_CACHE) := by
  constructor
  · intro hall
    cases h1 : net "/" with
    | failure => exact absurd h1 (hall "/" (by simp [APP_SHELL]))
    | success r1 =>
      cases h2 : net "/static/manifest.json" with
      | failure =>
        exact absurd h2 (hall "/static/manifest.json" (by simp [APP_SHELL]))
      | success r2 =>
        refine ⟨_, install_ok_eq h1 h2, ?_⟩
        intro p hp
        have hp' : p = "/" ∨ p = "/static/manifest.json" := by
          simpa [APP_SHELL] using hp
        rcases hp' with rfl | rfl
        · rw [cacheOf_cachePutIn_same,
            matchReq_put_other _ (show ("/" : String) ≠
              "/static/manifest.json" by decide),
            cacheOf_cachePutIn_same, matchReq_put_same]
          rfl
        · rw [cacheOf_cachePutIn_same, matchReq_put_same]
          rfl
  · intro hex
    exact ⟨_, install_err_eq hex, cacheOf_cachesOpen_same st STATIC_CACHE⟩

/-- C5 witness: the success half at the empty storage with a network on
which every resource resolves. -/
theorem C5_witness :
    ∃ st', install [] netFresh = .ok st' ∧
      ∀ p ∈ APP_SHELL,
        ((cacheOf st' STATIC_CACHE).matchReq p).isSome = true :=
  (C5_install_all_or_nothing [] netFresh).1 (by decide)

/-- C6: after the activate phase, every surviving namespace bears one
of the two current names (the live set is a subset of the two-element
current-name set), every namespace bearing a current name survives, and
in particular prior `static-v0` / `runtime-v0` namespaces are gone. -/
theorem C6_activate_purges_old (st : CacheStorage) :
    (∀ nc ∈ activate st, nc.1 = STATIC_CACHE ∨ nc.1 = RUNTIME_CACHE) ∧
    (∀ nc ∈ st, (nc.1 = STATIC_CACHE ∨ nc.1 = RUNTIME_CACHE) →
      nc ∈ activate st) ∧
    "static-v0" ∉ (activate st).map Prod.fst ∧
    "runtime-v0" ∉ (activate st).map Prod.fst := by
  have hmem : ∀ nc ∈ activate st,
      nc.1 = STATIC_CACHE ∨ nc.1 = RUNTIME_CACHE := by
    intro nc hnc
    have h := List.of_mem_filter hnc
    simpa using h
  refine ⟨hmem, ?_, ?_, ?_⟩
  · intro nc hnc hor
    exact List.mem_filter.mpr ⟨hnc, by simpa using hor⟩
  · intro hmm
    rw [List.mem_map] at hmm
    obtain ⟨nc, hnc, hfst⟩ := hmm
    rcases hmem nc hnc with h | h <;> rw [hfst] at h <;>
      exact absurd h (by decide)
  · intro hmm
    rw [List.mem_map] at hmm
    obtain ⟨nc, hnc, hfst⟩ := hmm
    rcases hmem nc hnc with h | h <;> rw [hfst] at h <;>
      exact absurd h (by decide)

/-- C6 witness: a storage holding only prior-version namespaces is
emptied by activation. -/
theorem C6_witness :
    "static-v0" ∉ (activate stV0).map Prod.fst ∧
    "runtime-v0" ∉ (activate stV0).map Prod.fst ∧
    activate stV0 = [] := by
  have h := C6_activate_purges_old stV0
  exact ⟨h.2.2.1, h.2.2.2, by decide⟩

/-- C8: for GET requests to `/static/` paths: a cached entry is
returned immediately with the storage unchanged; on a miss, a resolved
network response is returned and afterwards the static namespace
contains an entry for the request; on a miss whose fetch fails there is
no fallback — the rejection propagates and the storage is unchanged. -/
theorem C8_static_cache_first {st : CacheStorage} {net : Network}
    {req : Request} (hm : req.method = "GET")
    (hst : isStatic req.path = true) :
    (∀ r, cachesMatch st req.path = some r →
      handleFetch st net req = ⟨.response r, st, false, true⟩) ∧
    (cachesMatch st req.path = none →
      (∀ res, net req.path = .success res →
        (handleFetch st net req).outcome = .response res ∧
        (cacheOf (handleFetch st net req).caches STATIC_CACHE).matchReq
          req.path = some res) ∧
      (net req.path = .failure →
        handleFetch st net req = ⟨.rejected, st, true, true⟩)) := by
  refine ⟨?_, ?_⟩
  · intro r hc
    exact fetch_static_hit hm hst hc
  · intro hc
    refine ⟨?_, ?_⟩
    · intro res hres
      rw [fetch_static_miss_success hm hst hc hres]
      refine ⟨rfl, ?_⟩
      show (cacheOf (cachePutIn st STATIC_CACHE req.path res)
        STATIC_CACHE).matchReq req.path = some res
      rw [cacheOf_cachePutIn_same, matchReq_put_same]
    · intro hres
      exact fetch_static_miss_failure hm hst hc hres

/-- C8 witness: a static-asset miss with a reachable network returns
the network response and stores an entry for the request. -/
theorem C8_witness :
    (handleFetch [] netFresh reqStyles).outcome = .response freshRoot ∧
    (cacheOf (handleFetch [] netFresh reqStyles).caches
      STATIC_CACHE).matchReq "/static/styles.css" = some freshRoot := by
  have h := @C8_static_cache_first [] netFresh reqStyles rfl (by decide)
  exact (h.2 rfl).1 freshRoot rfl

/-- C9: in every state reachable by this script's handlers, every entry
of the static namespace has request path `/` or a `/static/` path,
every entry of the runtime namespace has a dynamic-endpoint path, and
no request key is present in both namespaces at once. -/
theorem C9_namespace_discipline {st : CacheStorage} (h : Reachable st) :
    (∀ e ∈ cacheOf st STATIC_CACHE, e.1 = "/" ∨ isStatic e.1 = true) ∧
    (∀ e ∈ cacheOf st RUNTIME_CACHE, isAPI e.1 = true) ∧
    (∀ p : String,
      ((cacheOf st STATIC_CACHE).matchReq p).isSome = true →
      ((cacheOf st RUNTIME_CACHE).matchReq p).isSome = false) := by
  obtain ⟨hk, -⟩ := reachable_goodState h
  have hstatic : ∀ e ∈ cacheOf st STATIC_CACHE, staticKey e.1 = true := by
    rcases cacheOf_mem_or_nil st STATIC_CACHE with hnil | hmem
    · rw [hnil]
      intro e he
      simp at he
    · rcases hk _ hmem with ⟨-, h2⟩ | ⟨h1, -⟩
      · exact h2
      · exact absurd h1 STATIC_ne_RUNTIME
  have hruntime : ∀ e ∈ cacheOf st RUNTIME_CACHE, isAPI e.1 = true := by
    rcases cacheOf_mem_or_nil st RUNTIME_CACHE with hnil | hmem
    · rw [hnil]
      intro e he
      simp at he
    · rcases hk _ hmem with ⟨h1, -⟩ | ⟨-, h2⟩
      · exact absurd h1.symm STATIC_ne_RUNTIME
      · exact h2
  refine ⟨?_, hruntime, ?_⟩
  · intro e he
    have hkey := hstatic e he
    simpa [staticKey] using hkey
  · intro p hsome
    cases hmq : (cacheOf st STATIC_CACHE).matchReq p with
    | none =>
      rw [hmq] at hsome
      simp at hsome
    | some r =>
      have hkey : staticKey p = true := hstatic _ (matchReq_some_mem hmq)
      rw [matchReq_none_of_keys hruntime (staticKey_not_isAPI hkey)]
      rfl

/-- C9 witness: in the reachable state produced by one root-page fetch,
the key `/` lives in the static namespace and hence not in the runtime
namespace. -/
theorem C9_witness :
    ((cacheOf (handleFetch [] netFresh reqRoot).caches
      RUNTIME_CACHE).matchReq "/").isSome = false :=
  (C9_namespace_discipline
    (Reachable.fetchStep netFresh reqRoot Reachable.init)).2.2 "/"
    (by decide)

/-- C10: on a cache miss for the root page or for a static asset, a
resolved network response is stored into the static namespace whatever
its status — a non-2xx response included — and a subsequent request is
then served that cached response regardless of the network; by
contrast, the dynamic branch stores nothing for a non-2xx response. -/
theorem C10_static_store_any_status {st : CacheStorage} {net : Network}
    {req : Request} {res : Response} (hre : Reachable st)
    (hm : req.method = "GET") (hnet : net req.path = .success res)
    (hok : res.ok = false) :
    ((req.path = "/" ∨ isStatic req.path = true) →
      cachesMatch st req.path = none →
      (handleFetch st net req).outcome = .response res ∧
      (cacheOf (handleFetch st net req).caches STATIC_CACHE).matchReq
        req.path = some res ∧
      (∀ net' : Network,
        (handleFetch (handleFetch st net req).caches net' req).outcome =
          .response res)) ∧
    (isAPI req.path = true → (handleFetch st net req).caches = st) := by
  constructor
  · intro hpath hc
    have hkey : staticKey req.path = true := by
      rcases hpath with h | h
      · simp [staticKey, h]
      · simp [staticKey, h]
    have hfe : handleFetch st net req =
        ⟨.response res, cachePutIn st STATIC_CACHE req.path res,
         true, true⟩ := by
      rcases hpath with h | h
      · exact fetch_root_miss_success hm h hc hnet
      · exact fetch_static_miss_success hm h hc hnet
    rw [hfe]
    have hlook : (cacheOf (cachePutIn st STATIC_CACHE req.path res)
        STATIC_CACHE).matchReq req.path = some res := by
      rw [cacheOf_cachePutIn_same, matchReq_put_same]
    refine ⟨rfl, hlook, ?_⟩
    intro net'
    show (handleFetch (cachePutIn st STATIC_CACHE req.path res) net'
      req).outcome = .response res
    have hg' : GoodState (cachePutIn st STATIC_CACHE req.path res) :=
      goodState_cachePutIn_static (reachable_goodState hre) hkey
    have hmm : cachesMatch (cachePutIn st STATIC_CACHE req.path res)
        req.path = some res := by
      rw [cachesMatch_staticKey_eq hg' hkey, hlook]
    rcases hpath with h | h
    · rw [fetch_root_hit hm h hmm]
    · rw [fetch_static_hit hm h hmm]
  · intro hapi
    rw [fetch_api_success hm hapi hnet]
    show (if res.ok then cachePutIn st RUNTIME_CACHE req.path res
      else st) = st
    rw [if_neg (by simp [hok])]

/-- C10 witness: a 404 for a static asset is cached and then served
from the cache even with the network down. -/
theorem C10_witness :
    (handleFetch [] netNotFound reqStyles).outcome = .response notFound ∧
    (handleFetch (handleFetch [] netNotFound reqStyles).caches netDown
      reqStyles).outcome = .response notFound := by
  have h := (@C10_static_store_any_status [] netNotFound reqStyles
    notFound Reachable.init rfl rfl (by decide)).1
    (Or.inr (by decide)) rfl
  exact ⟨h.1, h.2.2 netDown⟩

-- Sanity checks on concrete inputs.
example : isAPI "/attendance/today" = true := by decide
example : staticKey "/" = true := by decide
example : isAPI "/export.xlsx" = true := by decide
example : isStatic "/static/manifest.json" = true := by decide
example : isAPI "/static/app.js" = false := by decide
example : isStatic "/" = false := by decide
example :
    handleFetch [] (fun _ => .failure) ⟨"GET", "/"⟩ =
      ⟨.empty, [], true, true⟩ := by decide
example :
    handleFetch [(STATIC_CACHE, [("/", ⟨200, "shell"⟩)])]
        (fun _ => .success ⟨200, "fresh"⟩) ⟨"GET", "/"⟩ =
      ⟨.response ⟨200, "shell"⟩,
       [(STATIC_CACHE, [("/", ⟨200, "shell"⟩)])], false, true⟩ := by decide
